import Mathlib

/-
Verification of the AIS/audio labelling pipeline in
DataScience/AisAudioLabeler.py (functions augment_ais_data,
get_shp_dictionary and export_audio_clips) against its design
specification.  All definitions below are shallow embeddings of the
Python source; line numbers refer to DataScience/AisAudioLabeler.py.
-/

namespace AisAudioLabeler

/-! ### Status classification (lines 380..399)

The source fixes two status lists and derives a gap threshold for each
status string: 10 seconds for the underway status, 180 seconds both for
the explicit not-underway statuses and for every other status. -/

def status_for_underway : List String := ["UnderWayUsingEngine"]

def status_for_not_underway : List String :=
  ["NotUnderWayUsingEngine", "AtAnchor", "Moored", "NotUnderCommand"]

/-- Gap threshold chosen by the source for a raw status string
(lines 394..399). -/
def timestamp_diff (status : String) : Int :=
  if status ∈ status_for_underway then 10
  else if status ∈ status_for_not_underway then 180
  else 180

/-! ### Interval segmentation (lines 401..417)

The source splits the sorted timestamp vector of one (ship, status)
pair at every position where the difference of adjacent timestamps
exceeds the threshold (np.split over np.diff), then for every resulting
run takes its first and last element and records the pair only when
they differ. -/

/-- Maximal runs of a timestamp list in which every adjacent gap is at
most thr; the list is split exactly where the adjacent difference
exceeds thr, mirroring np.split(timestamp, np.where(np.diff > thr)).
The source only ever applies this to nonempty vectors (the status
values are taken from the rows present). -/
def splitRuns (thr : Int) : List Int → List (List Int)
  | [] => []
  | [t] => [[t]]
  | t :: u :: rest =>
    match splitRuns thr (u :: rest) with
    | [] => [[t]]
    | r :: rs => if u - t > thr then [t] :: r :: rs else (t :: r) :: rs

/-- The (first, last) pair recorded for one run: the source keeps
(timestamp_set[0], timestamp_set[-1]) only when the two differ
(lines 412..417). -/
def runInterval (r : List Int) : Option (Int × Int) :=
  match r.head?, r.getLast? with
  | some a, some b => if a ≠ b then some (a, b) else none
  | _, _ => none

/-- Activity intervals emitted for one sorted timestamp list at a given
threshold: the runs, each reduced to its recorded pair. -/
def segmentIntervals (thr : Int) (ts : List Int) : List (Int × Int) :=
  (splitRuns thr ts).filterMap runInterval

/-- Specification-side reduction of a run: the (first, last) pair of a
run of length at least two; runs of length one yield nothing. -/
def runFirstLast : List Int → Option (Int × Int)
  | [] => none
  | [_] => none
  | a :: b :: rest => some (a, (b :: rest).getLast (List.cons_ne_nil b rest))

/-- Separation of two adjacent runs: the gap from the last element of
the first to the first element of the second exceeds thr. -/
def runSep (thr : Int) (r₁ r₂ : List Int) : Prop :=
  ∀ a b, r₁.getLast? = some a → r₂.head? = some b → thr < b - a

/-! ### Basic facts about splitRuns -/

theorem splitRuns_flatten (thr : Int) (ts : List Int) :
    (splitRuns thr ts).flatten = ts := by
  induction ts with
  | nil => simp [splitRuns]
  | cons t rest ih =>
    cases rest with
    | nil => simp [splitRuns]
    | cons u rest' =>
      rw [splitRuns]
      rcases h : splitRuns thr (u :: rest') with _ | ⟨r, rs⟩
      · rw [h] at ih; simp at ih
      · rw [h] at ih
        show (if u - t > thr then [t] :: r :: rs else (t :: r) :: rs).flatten
          = t :: u :: rest'
        by_cases hgap : u - t > thr
        · rw [if_pos hgap, List.flatten_cons, ih, List.singleton_append]
        · rw [if_neg hgap, List.flatten_cons, List.cons_append, ← List.flatten_cons, ih]

theorem splitRuns_ne_nil (thr : Int) (ts : List Int) (h : ts ≠ []) :
    splitRuns thr ts ≠ [] := by
  cases ts with
  | nil => simp at h
  | cons t rest =>
    cases rest with
    | nil => simp [splitRuns]
    | cons u rest' =>
      rw [splitRuns]
      rcases splitRuns thr (u :: rest') with _ | ⟨r, rs⟩
      · simp
      · by_cases hgap : u - t > thr <;> simp [hgap]

theorem splitRuns_head (thr t : Int) (rest : List Int) :
    ∃ r rs, splitRuns thr (t :: rest) = r :: rs ∧ r.head? = some t := by
  cases rest with
  | nil => exact ⟨[t], [], rfl, rfl⟩
  | cons u rest' =>
    rw [splitRuns]
    rcases splitRuns thr (u :: rest') with _ | ⟨r, rs⟩
    · exact ⟨[t], [], rfl, rfl⟩
    · by_cases hgap : u - t > thr
      · exact ⟨[t], r :: rs, by simp [hgap], rfl⟩
      · exact ⟨t :: r, rs, by simp [hgap], rfl⟩

/-- Within every run all adjacent gaps are at most the threshold: the
source splits exactly at the positions where the gap exceeds it. -/
theorem splitRuns_gap (thr : Int) (ts : List Int) :
    ∀ r ∈ splitRuns thr ts, r.Chain' (fun a b => b - a ≤ thr) := by
  induction ts with
  | nil => simp [splitRuns]
  | cons t rest ih =>
    cases rest with
    | nil => simp [splitRuns]
    | cons u rest' =>
      obtain ⟨r, rs, heq, hhead⟩ := splitRuns_head thr u rest'
      rw [splitRuns, heq]
      rw [heq] at ih
      by_cases hgap : u - t > thr
      · simp only [if_pos hgap]
        intro r' hr'
        rcases List.mem_cons.mp hr' with h | h
        · subst h; simp
        · exact ih r' h
      · simp only [if_neg hgap]
        intro r' hr'
        rcases List.mem_cons.mp hr' with h | h
        · subst h
          rw [List.chain'_cons']
          refine ⟨?_, ih r (by simp)⟩
          intro b hb
          rw [hhead] at hb
          cases hb
          omega
        · exact ih r' (List.mem_cons_of_mem r h)

/-- Any chain relation on the input list restricts to every run. -/
theorem splitRuns_chain (R : Int → Int → Prop) (thr : Int) (ts : List Int)
    (hts : ts.Chain' R) : ∀ r ∈ splitRuns thr ts, r.Chain' R := by
  induction ts with
  | nil => simp [splitRuns]
  | cons t rest ih =>
    cases rest with
    | nil => simp [splitRuns]
    | cons u rest' =>
      rw [List.chain'_cons] at hts
      obtain ⟨htu, hts'⟩ := hts
      obtain ⟨r, rs, heq, hhead⟩ := splitRuns_head thr u rest'
      rw [splitRuns, heq]
      have ih' := ih hts'
      rw [heq] at ih'
      by_cases hgap : u - t > thr
      · simp only [if_pos hgap]
        intro r' hr'
        rcases List.mem_cons.mp hr' with h | h
        · subst h; simp
        · exact ih' r' h
      · simp only [if_neg hgap]
        intro r' hr'
        rcases List.mem_cons.mp hr' with h | h
        · subst h
          rw [List.chain'_cons']
          refine ⟨?_, ih' r (by simp)⟩
          intro b hb
          rw [hhead] at hb
          cases hb
          exact htu
        · exact ih' r' (List.mem_cons_of_mem r h)

/-- Adjacent runs are separated by a gap exceeding the threshold. -/
theorem splitRuns_sep (thr : Int) (ts : List Int) :
    (splitRuns thr ts).Chain' (runSep thr) := by
  induction ts with
  | nil => simp [splitRuns]
  | cons t rest ih =>
    cases rest with
    | nil => simp [splitRuns]
    | cons u rest' =>
      obtain ⟨r, rs, heq, hhead⟩ := splitRuns_head thr u rest'
      rw [splitRuns, heq]
      rw [heq] at ih
      by_cases hgap : u - t > thr
      · simp only [if_pos hgap]
        rw [List.chain'_cons']
        refine ⟨?_, ih⟩
        intro r' hr' a b ha hb
        simp only [List.head?_cons] at hr'
        cases hr'
        simp only [List.getLast?_singleton, Option.some.injEq] at ha
        subst ha
        rw [hhead] at hb
        cases hb
        omega
      · simp only [if_neg hgap]
        have hrne : r ≠ [] := by
          intro hcon; subst hcon; simp at hhead
        rw [List.chain'_cons'] at ih ⊢
        refine ⟨?_, ih.2⟩
        intro r' hr' a b ha hb
        refine ih.1 r' hr' a b ?_ hb
        obtain ⟨x, r₀, rfl⟩ := List.exists_cons_of_ne_nil hrne
        rwa [List.getLast?_cons_cons] at ha

/-- On a strictly sorted run the recorded pair coincides with the
(first, last) pair of a run of length at least two: the endpoint test
start = stop of the source distinguishes exactly the length-one runs. -/
theorem runInterval_eq_runFirstLast (r : List Int) (hr : r.Chain' (· < ·)) :
    runInterval r = runFirstLast r := by
  match r with
  | [] => rfl
  | [a] => simp [runInterval, runFirstLast]
  | a :: b :: rest =>
    have hlast : (b :: rest).getLast (List.cons_ne_nil b rest) ∈ b :: rest :=
      List.getLast_mem _
    have hpw := (List.chain'_iff_pairwise).mp hr
    have hab : a < (b :: rest).getLast (List.cons_ne_nil b rest) := by
      rcases List.pairwise_cons.mp hpw with ⟨hforall, _⟩
      exact hforall _ hlast
    have hne : a ≠ (b :: rest).getLast (List.cons_ne_nil b rest) := ne_of_lt hab
    simp only [runInterval, runFirstLast, List.head?_cons, List.getLast?_cons_cons,
      List.getLast?_eq_getLast_of_ne_nil (List.cons_ne_nil b rest)]
    simp [hne]

/-- C1.  Interval segmentation: on a strictly sorted timestamp
sequence, the source partitions the sequence into maximal runs whose
internal gaps are at most the threshold (no timestamp is dropped from
the partition), adjacent runs are separated by a gap exceeding the
threshold, and the emitted activity intervals are exactly the
(first, last) pairs of the runs of length at least two, runs of length
one emitting nothing. -/
theorem interval_segmentation_correct (thr : Int) (ts : List Int)
    (hs : ts.Chain' (· < ·)) :
    (splitRuns thr ts).flatten = ts
    ∧ (∀ r ∈ splitRuns thr ts, r.Chain' (fun a b => b - a ≤ thr))
    ∧ (splitRuns thr ts).Chain' (runSep thr)
    ∧ segmentIntervals thr ts = (splitRuns thr ts).filterMap runFirstLast := by
  refine ⟨splitRuns_flatten thr ts, splitRuns_gap thr ts, splitRuns_sep thr ts, ?_⟩
  unfold segmentIntervals
  apply List.filterMap_congr
  intro r hr
  exact runInterval_eq_runFirstLast r (splitRuns_chain (· < ·) thr ts hs r hr)

/-- Witness for C1 at the timestamp sequence of the specification
example (threshold 10, timestamps 100, 105, 112, 400). -/
theorem interval_segmentation_correct_witness :
    List.Chain' (· < ·) ([100, 105, 112, 400] : List Int)
    ∧ ((splitRuns 10 [100, 105, 112, 400]).flatten = [100, 105, 112, 400]
      ∧ (∀ r ∈ splitRuns 10 [100, 105, 112, 400],
          r.Chain' (fun a b => b - a ≤ 10))
      ∧ (splitRuns 10 [100, 105, 112, 400]).Chain' (runSep 10)
      ∧ segmentIntervals 10 [100, 105, 112, 400]
        = (splitRuns 10 [100, 105, 112, 400]).filterMap runFirstLast) :=
  ⟨by norm_num [List.chain'_cons], interval_segmentation_correct 10 [100, 105, 112, 400] (by norm_num [List.chain'_cons])⟩

/-! ### Concurrency timelines and the activity store (lines 316..443)

The source allocates two dataframes indexed by every second from min_t
to max_t (lines 326..338), then for every ship group of at least three
records and every status it splits the timestamps into runs, appends
the recorded pair of each multi-element run to the shp dictionary, and
increments the matching count column over the label range
start..stop while appending the mmsi to the mmsis cell of every second
in that range (lines 340..429).  Label-based range assignment clips to
the allocated index. -/

structure Timeline where
  lo : Int
  hi : Int
  count : Int → Nat
  mmsis : Int → List String

def initTimeline (lo hi : Int) : Timeline :=
  ⟨lo, hi, fun _ => 0, fun _ => []⟩

/-- Label-based range update of lines 421..424 and 426..429: increment
the count and append the mmsi on every second of start..stop that lies
in the allocated index. -/
def addInterval (m : String) (a b : Int) (tl : Timeline) : Timeline :=
  { tl with
    count := fun t =>
      if a ≤ t ∧ t ≤ b ∧ tl.lo ≤ t ∧ t ≤ tl.hi then tl.count t + 1 else tl.count t
    mmsis := fun t =>
      if a ≤ t ∧ t ≤ b ∧ tl.lo ≤ t ∧ t ≤ tl.hi then tl.mmsis t ++ [m] else tl.mmsis t }

/-- Point lookup of lines 431..441: a single-label .loc access, which
raises a KeyError (modelled as none) when the label is outside the
allocated index. -/
def Timeline.countAt (tl : Timeline) (t : Int) : Option Nat :=
  if tl.lo ≤ t ∧ t ≤ tl.hi then some (tl.count t) else none

/-- Point lookup of the mmsis column, likewise failing outside the
allocated index. -/
def Timeline.mmsisAt (tl : Timeline) (t : Int) : Option (List String) :=
  if tl.lo ≤ t ∧ t ≤ tl.hi then some (tl.mmsis t) else none

/-! Association lists standing for the Python dictionaries: assignment
replaces the value of an existing key or adds the key at the end, and
in-place modification rewrites the value of an existing key. -/

def lookupKey {β : Type} : List (String × β) → String → Option β
  | [], _ => none
  | (k', v) :: rest, k => if k' = k then some v else lookupKey rest k

def setKey {β : Type} : List (String × β) → String → β → List (String × β)
  | [], k, v => [(k, v)]
  | (k', v') :: rest, k, v =>
    if k' = k then (k', v) :: rest else (k', v') :: setKey rest k v

def modifyKey {β : Type} (f : β → β) : List (String × β) → String → List (String × β)
  | [], _ => []
  | (k', v') :: rest, k =>
    if k' = k then (k', f v') :: rest else (k', v') :: modifyKey f rest k

/-- The shp dictionary: mmsi to status to ordered interval list. -/
abbrev StatusMap := List (String × List (Int × Int))
abbrev Shp := List (String × StatusMap)

/-- Line 359: shp[mmsi] = dict(). -/
def shpSetShip (shp : Shp) (m : String) : Shp := setKey shp m []

/-- Line 410: shp[mmsi][status] = list(). -/
def shpSetStatus (shp : Shp) (m st : String) : Shp :=
  modifyKey (fun d => setKey d st []) shp m

/-- Line 417: shp[mmsi][status].append((start, stop)). -/
def shpAppend (shp : Shp) (m st : String) (iv : Int × Int) : Shp :=
  modifyKey (fun d => modifyKey (fun l => l ++ [iv]) d st) shp m

/-- Reading shp[mmsi][status]; the pipeline only reads keys it created. -/
def shpGet (shp : Shp) (m st : String) : List (Int × Int) :=
  (lookupKey ((lookupKey shp m).getD []) st).getD []

structure AugState where
  uw : Timeline
  nuw : Timeline
  shp : Shp

/-- Body of the loop over timestamp runs (lines 411..429): record the
pair when its endpoints differ, then update the timeline matching the
status classification; statuses in neither list update no timeline. -/
def runStep (m st : String) (s : AugState) (r : List Int) : AugState :=
  match r.head?, r.getLast? with
  | some a, some b =>
    let s₁ := if a ≠ b then { s with shp := shpAppend s.shp m st (a, b) } else s
    if st ∈ status_for_underway then { s₁ with uw := addInterval m a b s₁.uw }
    else if st ∈ status_for_not_underway then
      { s₁ with nuw := addInterval m a b s₁.nuw }
    else s₁
  | _, _ => s

/-- Body of the loop over statuses (lines 387..429). -/
def processStatus (m : String) (s : AugState) (p : String × List Int) : AugState :=
  (splitRuns (timestamp_diff p.1) p.2).foldl (runStep m p.1)
    { s with shp := shpSetStatus s.shp m p.1 }

/-- One ship group: its mmsi and, per status in order of first
appearance, the sorted timestamps reported under that status. -/
structure Ship where
  mmsi : String
  statuses : List (String × List Int)

/-- Total number of position records of the group. -/
def Ship.total (s : Ship) : Nat := (s.statuses.map (fun p => p.2.length)).sum

/-- Body of the loop over ship groups (lines 343..429): groups with
fewer than three records are skipped entirely. -/
def processShip (s : AugState) (ship : Ship) : AugState :=
  if ship.total < 3 then s
  else ship.statuses.foldl (processStatus ship.mmsi)
    { s with shp := shpSetShip s.shp ship.mmsi }

/-- The augmentation pass over all ship groups, building both
timelines over the allocated index lo..hi together with the shp
dictionary (lines 326..429). -/
def buildAug (lo hi : Int) (ships : List Ship) : AugState :=
  ships.foldl processShip ⟨initTimeline lo hi, initTimeline lo hi, []⟩

/-! ### Generic fold lemmas -/

theorem foldl_proj {σ τ α : Type} (f : σ → α → σ) (g : τ → α → τ) (proj : σ → τ)
    (h : ∀ s x, proj (f s x) = g (proj s) x) :
    ∀ (l : List α) (s : σ), proj (l.foldl f s) = l.foldl g (proj s)
  | [], _ => rfl
  | x :: xs, s => by
    rw [List.foldl_cons, List.foldl_cons, foldl_proj f g proj h xs, h]

theorem foldl_preserve {σ α : Type} (P : σ → Prop) (f : σ → α → σ)
    (h : ∀ s x, P s → P (f s x)) :
    ∀ (l : List α) (s : σ), P s → P (l.foldl f s)
  | [], _, hs => hs
  | x :: xs, s, hs => by
    rw [List.foldl_cons]
    exact foldl_preserve P f h xs (f s x) (h s x hs)

theorem foldl_skip {σ α : Type} : ∀ (l : List α) (s : σ),
    l.foldl (fun s _ => s) s = s
  | [], _ => rfl
  | _ :: xs, s => foldl_skip xs s

/-! ### Timeline projections of the augmentation loops -/

/-- Effect of one run on one timeline. -/
def addRun (m : String) (tl : Timeline) (r : List Int) : Timeline :=
  match r.head?, r.getLast? with
  | some a, some b => addInterval m a b tl
  | _, _ => tl

/-- Effect of one status on the underway timeline. -/
def statusUw (m : String) (tl : Timeline) (p : String × List Int) : Timeline :=
  if p.1 ∈ status_for_underway then
    (splitRuns (timestamp_diff p.1) p.2).foldl (addRun m) tl
  else tl

/-- Effect of one status on the not-underway timeline (the elif branch
runs only when the underway branch did not). -/
def statusNuw (m : String) (tl : Timeline) (p : String × List Int) : Timeline :=
  if p.1 ∈ status_for_underway then tl
  else if p.1 ∈ status_for_not_underway then
    (splitRuns (timestamp_diff p.1) p.2).foldl (addRun m) tl
  else tl

/-- Effect of one ship group on the underway timeline. -/
def shipUw (tl : Timeline) (ship : Ship) : Timeline :=
  if ship.total < 3 then tl else ship.statuses.foldl (statusUw ship.mmsi) tl

/-- Effect of one ship group on the not-underway timeline. -/
def shipNuw (tl : Timeline) (ship : Ship) : Timeline :=
  if ship.total < 3 then tl else ship.statuses.foldl (statusNuw ship.mmsi) tl

theorem runStep_uw (m st : String) (s : AugState) (r : List Int) :
    (runStep m st s r).uw
    = if st ∈ status_for_underway then addRun m s.uw r else s.uw := by
  unfold runStep addRun
  cases hh : r.head? <;> cases hl : r.getLast?
  · by_cases h1 : st ∈ status_for_underway <;> simp [h1]
  · by_cases h1 : st ∈ status_for_underway <;> simp [h1]
  · by_cases h1 : st ∈ status_for_underway <;> simp [h1]
  · rename_i a b
    by_cases h1 : st ∈ status_for_underway <;>
    by_cases h2 : st ∈ status_for_not_underway <;>
    by_cases hab : a = b <;>
    simp [h1, h2, hab]

theorem runStep_nuw (m st : String) (s : AugState) (r : List Int) :
    (runStep m st s r).nuw
    = if st ∈ status_for_underway then s.nuw
      else if st ∈ status_for_not_underway then addRun m s.nuw r else s.nuw := by
  unfold runStep addRun
  cases hh : r.head? <;> cases hl : r.getLast?
  · by_cases h1 : st ∈ status_for_underway <;>
    by_cases h2 : st ∈ status_for_not_underway <;> simp [h1, h2]
  · by_cases h1 : st ∈ status_for_underway <;>
    by_cases h2 : st ∈ status_for_not_underway <;> simp [h1, h2]
  · by_cases h1 : st ∈ status_for_underway <;>
    by_cases h2 : st ∈ status_for_not_underway <;> simp [h1, h2]
  · rename_i a b
    by_cases h1 : st ∈ status_for_underway <;>
    by_cases h2 : st ∈ status_for_not_underway <;>
    by_cases hab : a = b <;>
    simp [h1, h2, hab]

theorem processStatus_uw (m : String) (s : AugState) (p : String × List Int) :
    (processStatus m s p).uw = statusUw m s.uw p := by
  unfold processStatus statusUw
  rw [foldl_proj (runStep m p.1)
    (fun tl r => if p.1 ∈ status_for_underway then addRun m tl r else tl)
    AugState.uw (fun s r => runStep_uw m p.1 s r)]
  by_cases h1 : p.1 ∈ status_for_underway
  · simp [h1]
  · simp [h1, foldl_skip]

theorem processStatus_nuw (m : String) (s : AugState) (p : String × List Int) :
    (processStatus m s p).nuw = statusNuw m s.nuw p := by
  unfold processStatus statusNuw
  rw [foldl_proj (runStep m p.1)
    (fun tl r => if p.1 ∈ status_for_underway then tl
      else if p.1 ∈ status_for_not_underway then addRun m tl r else tl)
    AugState.nuw (fun s r => runStep_nuw m p.1 s r)]
  by_cases h1 : p.1 ∈ status_for_underway
  · simp [h1, foldl_skip]
  · by_cases h2 : p.1 ∈ status_for_not_underway
    · simp [h1, h2]
    · simp [h1, h2, foldl_skip]

theorem processShip_uw (s : AugState) (ship : Ship) :
    (processShip s ship).uw = shipUw s.uw ship := by
  unfold processShip shipUw
  by_cases h3 : ship.total < 3
  · simp [h3]
  · simp only [if_neg h3]
    rw [foldl_proj (processStatus ship.mmsi) (statusUw ship.mmsi)
      AugState.uw (fun s p => processStatus_uw ship.mmsi s p)]

theorem processShip_nuw (s : AugState) (ship : Ship) :
    (processShip s ship).nuw = shipNuw s.nuw ship := by
  unfold processShip shipNuw
  by_cases h3 : ship.total < 3
  · simp [h3]
  · simp only [if_neg h3]
    rw [foldl_proj (processStatus ship.mmsi) (statusNuw ship.mmsi)
      AugState.nuw (fun s p => processStatus_nuw ship.mmsi s p)]

theorem buildAug_uw (lo hi : Int) (ships : List Ship) :
    (buildAug lo hi ships).uw = ships.foldl shipUw (initTimeline lo hi) := by
  unfold buildAug
  rw [foldl_proj processShip shipUw AugState.uw processShip_uw]

theorem buildAug_nuw (lo hi : Int) (ships : List Ship) :
    (buildAug lo hi ships).nuw = ships.foldl shipNuw (initTimeline lo hi) := by
  unfold buildAug
  rw [foldl_proj processShip shipNuw AugState.nuw processShip_nuw]

/-! ### Invariance of the allocated index and the count-length law -/

theorem addRun_lo (m : String) (tl : Timeline) (r : List Int) :
    (addRun m tl r).lo = tl.lo := by
  unfold addRun
  cases r.head? <;> cases r.getLast? <;> rfl

theorem addRun_hi (m : String) (tl : Timeline) (r : List Int) :
    (addRun m tl r).hi = tl.hi := by
  unfold addRun
  cases r.head? <;> cases r.getLast? <;> rfl

theorem statusUw_lo (m : String) (tl : Timeline) (p : String × List Int) :
    (statusUw m tl p).lo = tl.lo := by
  unfold statusUw
  by_cases h : p.1 ∈ status_for_underway
  · rw [if_pos h,
      foldl_proj (addRun m) (fun l _ => l) Timeline.lo (addRun_lo m), foldl_skip]
  · rw [if_neg h]

theorem statusUw_hi (m : String) (tl : Timeline) (p : String × List Int) :
    (statusUw m tl p).hi = tl.hi := by
  unfold statusUw
  by_cases h : p.1 ∈ status_for_underway
  · rw [if_pos h,
      foldl_proj (addRun m) (fun l _ => l) Timeline.hi (addRun_hi m), foldl_skip]
  · rw [if_neg h]

theorem statusNuw_lo (m : String) (tl : Timeline) (p : String × List Int) :
    (statusNuw m tl p).lo = tl.lo := by
  unfold statusNuw
  by_cases h1 : p.1 ∈ status_for_underway
  · rw [if_pos h1]
  · by_cases h2 : p.1 ∈ status_for_not_underway
    · rw [if_neg h1, if_pos h2,
        foldl_proj (addRun m) (fun l _ => l) Timeline.lo (addRun_lo m), foldl_skip]
    · rw [if_neg h1, if_neg h2]

theorem statusNuw_hi (m : String) (tl : Timeline) (p : String × List Int) :
    (statusNuw m tl p).hi = tl.hi := by
  unfold statusNuw
  by_cases h1 : p.1 ∈ status_for_underway
  · rw [if_pos h1]
  · by_cases h2 : p.1 ∈ status_for_not_underway
    · rw [if_neg h1, if_pos h2,
        foldl_proj (addRun m) (fun l _ => l) Timeline.hi (addRun_hi m), foldl_skip]
    · rw [if_neg h1, if_neg h2]

theorem shipUw_lo (tl : Timeline) (ship : Ship) : (shipUw tl ship).lo = tl.lo := by
  unfold shipUw
  by_cases h : ship.total < 3
  · rw [if_pos h]
  · rw [if_neg h,
      foldl_proj (statusUw ship.mmsi) (fun l _ => l) Timeline.lo
        (statusUw_lo ship.mmsi), foldl_skip]

theorem shipUw_hi (tl : Timeline) (ship : Ship) : (shipUw tl ship).hi = tl.hi := by
  unfold shipUw
  by_cases h : ship.total < 3
  · rw [if_pos h]
  · rw [if_neg h,
      foldl_proj (statusUw ship.mmsi) (fun l _ => l) Timeline.hi
        (statusUw_hi ship.mmsi), foldl_skip]

theorem shipNuw_lo (tl : Timeline) (ship : Ship) : (shipNuw tl ship).lo = tl.lo := by
  unfold shipNuw
  by_cases h : ship.total < 3
  · rw [if_pos h]
  · rw [if_neg h,
      foldl_proj (statusNuw ship.mmsi) (fun l _ => l) Timeline.lo
        (statusNuw_lo ship.mmsi), foldl_skip]

theorem shipNuw_hi (tl : Timeline) (ship : Ship) : (shipNuw tl ship).hi = tl.hi := by
  unfold shipNuw
  by_cases h : ship.total < 3
  · rw [if_pos h]
  · rw [if_neg h,
      foldl_proj (statusNuw ship.mmsi) (fun l _ => l) Timeline.hi
        (statusNuw_hi ship.mmsi), foldl_skip]

theorem buildAug_uw_lo (lo hi : Int) (ships : List Ship) :
    (buildAug lo hi ships).uw.lo = lo := by
  rw [buildAug_uw,
    foldl_proj shipUw (fun l _ => l) Timeline.lo shipUw_lo, foldl_skip]
  rfl

theorem buildAug_uw_hi (lo hi : Int) (ships : List Ship) :
    (buildAug lo hi ships).uw.hi = hi := by
  rw [buildAug_uw,
    foldl_proj shipUw (fun l _ => l) Timeline.hi shipUw_hi, foldl_skip]
  rfl

theorem buildAug_nuw_lo (lo hi : Int) (ships : List Ship) :
    (buildAug lo hi ships).nuw.lo = lo := by
  rw [buildAug_nuw,
    foldl_proj shipNuw (fun l _ => l) Timeline.lo shipNuw_lo, foldl_skip]
  rfl

theorem buildAug_nuw_hi (lo hi : Int) (ships : List Ship) :
    (buildAug lo hi ships).nuw.hi = hi := by
  rw [buildAug_nuw,
    foldl_proj shipNuw (fun l _ => l) Timeline.hi shipNuw_hi, foldl_skip]
  rfl

/-- The count-length law: every cell of a timeline counts exactly the
entries of its mmsis cell. -/
def countLaw (tl : Timeline) : Prop := ∀ t, tl.count t = (tl.mmsis t).length

theorem countLaw_addInterval (m : String) (a b : Int) (tl : Timeline)
    (h : countLaw tl) : countLaw (addInterval m a b tl) := by
  intro t
  unfold addInterval
  by_cases hc : a ≤ t ∧ t ≤ b ∧ tl.lo ≤ t ∧ t ≤ tl.hi <;>
    simp [hc, h t]

theorem countLaw_addRun (m : String) (tl : Timeline) (r : List Int)
    (h : countLaw tl) : countLaw (addRun m tl r) := by
  unfold addRun
  cases r.head? <;> cases r.getLast? <;>
    first
      | exact h
      | exact countLaw_addInterval _ _ _ tl h

theorem countLaw_statusUw (m : String) (tl : Timeline) (p : String × List Int)
    (h : countLaw tl) : countLaw (statusUw m tl p) := by
  unfold statusUw
  by_cases h1 : p.1 ∈ status_for_underway
  · rw [if_pos h1]
    exact foldl_preserve countLaw (addRun m)
      (fun tl r hc => countLaw_addRun m tl r hc) _ tl h
  · rwa [if_neg h1]

theorem countLaw_statusNuw (m : String) (tl : Timeline) (p : String × List Int)
    (h : countLaw tl) : countLaw (statusNuw m tl p) := by
  unfold statusNuw
  by_cases h1 : p.1 ∈ status_for_underway
  · rwa [if_pos h1]
  · by_cases h2 : p.1 ∈ status_for_not_underway
    · rw [if_neg h1, if_pos h2]
      exact foldl_preserve countLaw (addRun m)
        (fun tl r hc => countLaw_addRun m tl r hc) _ tl h
    · rwa [if_neg h1, if_neg h2]

theorem countLaw_buildAug_uw (lo hi : Int) (ships : List Ship) :
    countLaw (buildAug lo hi ships).uw := by
  rw [buildAug_uw]
  refine foldl_preserve countLaw shipUw ?_ ships (initTimeline lo hi) ?_
  · intro tl ship hc
    unfold shipUw
    by_cases h : ship.total < 3
    · rwa [if_pos h]
    · rw [if_neg h]
      exact foldl_preserve countLaw (statusUw ship.mmsi)
        (fun tl p hc => countLaw_statusUw ship.mmsi tl p hc) _ tl hc
  · intro t; rfl

theorem countLaw_buildAug_nuw (lo hi : Int) (ships : List Ship) :
    countLaw (buildAug lo hi ships).nuw := by
  rw [buildAug_nuw]
  refine foldl_preserve countLaw shipNuw ?_ ships (initTimeline lo hi) ?_
  · intro tl ship hc
    unfold shipNuw
    by_cases h : ship.total < 3
    · rwa [if_pos h]
    · rw [if_neg h]
      exact foldl_preserve countLaw (statusNuw ship.mmsi)
        (fun tl p hc => countLaw_statusNuw ship.mmsi tl p hc) _ tl hc
  · intro t; rfl

/-! ### Occupants of a timeline cell -/

/-- Contribution of one run to the mmsis cell at second t. -/
def occRun (lo hi t : Int) (m : String) (r : List Int) : List String :=
  match r.head?, r.getLast? with
  | some a, some b => if a ≤ t ∧ t ≤ b ∧ lo ≤ t ∧ t ≤ hi then [m] else []
  | _, _ => []

/-- Contribution of one status to the underway mmsis cell at second t. -/
def occStatusUw (lo hi t : Int) (m : String) (p : String × List Int) : List String :=
  if p.1 ∈ status_for_underway then
    ((splitRuns (timestamp_diff p.1) p.2).map (occRun lo hi t m)).flatten
  else []

/-- Contribution of one status to the not-underway mmsis cell. -/
def occStatusNuw (lo hi t : Int) (m : String) (p : String × List Int) : List String :=
  if p.1 ∈ status_for_underway then []
  else if p.1 ∈ status_for_not_underway then
    ((splitRuns (timestamp_diff p.1) p.2).map (occRun lo hi t m)).flatten
  else []

/-- Contribution of one ship group to the underway mmsis cell. -/
def occShipUw (lo hi t : Int) (ship : Ship) : List String :=
  if ship.total < 3 then []
  else (ship.statuses.map (occStatusUw lo hi t ship.mmsi)).flatten

/-- Contribution of one ship group to the not-underway mmsis cell. -/
def occShipNuw (lo hi t : Int) (ship : Ship) : List String :=
  if ship.total < 3 then []
  else (ship.statuses.map (occStatusNuw lo hi t ship.mmsi)).flatten

theorem addInterval_mmsis (m : String) (a b : Int) (tl : Timeline) (t : Int) :
    (addInterval m a b tl).mmsis t
    = tl.mmsis t ++ (if a ≤ t ∧ t ≤ b ∧ tl.lo ≤ t ∧ t ≤ tl.hi then [m] else []) := by
  unfold addInterval
  by_cases hc : a ≤ t ∧ t ≤ b ∧ tl.lo ≤ t ∧ t ≤ tl.hi <;> simp [hc]

theorem addRun_mmsis (m : String) (tl : Timeline) (r : List Int) (t : Int) :
    (addRun m tl r).mmsis t = tl.mmsis t ++ occRun tl.lo tl.hi t m r := by
  unfold addRun occRun
  cases r.head? <;> cases r.getLast? <;> simp [addInterval_mmsis]

theorem foldl_addRun_mmsis (m : String) (t : Int) :
    ∀ (runs : List (List Int)) (tl : Timeline),
    ((runs.foldl (addRun m) tl).mmsis t)
    = tl.mmsis t ++ (runs.map (occRun tl.lo tl.hi t m)).flatten
  | [], tl => by simp
  | r :: rs, tl => by
    rw [List.foldl_cons, foldl_addRun_mmsis m t rs (addRun m tl r),
      addRun_lo, addRun_hi, addRun_mmsis, List.map_cons, List.flatten_cons,
      List.append_assoc]

theorem statusUw_mmsis (m : String) (tl : Timeline) (p : String × List Int)
    (t : Int) :
    (statusUw m tl p).mmsis t = tl.mmsis t ++ occStatusUw tl.lo tl.hi t m p := by
  unfold statusUw occStatusUw
  by_cases h1 : p.1 ∈ status_for_underway
  · rw [if_pos h1, if_pos h1, foldl_addRun_mmsis]
  · rw [if_neg h1, if_neg h1, List.append_nil]

theorem statusNuw_mmsis (m : String) (tl : Timeline) (p : String × List Int)
    (t : Int) :
    (statusNuw m tl p).mmsis t = tl.mmsis t ++ occStatusNuw tl.lo tl.hi t m p := by
  unfold statusNuw occStatusNuw
  by_cases h1 : p.1 ∈ status_for_underway
  · rw [if_pos h1, if_pos h1, List.append_nil]
  · by_cases h2 : p.1 ∈ status_for_not_underway
    · rw [if_neg h1, if_pos h2, if_neg h1, if_pos h2, foldl_addRun_mmsis]
    · rw [if_neg h1, if_neg h2, if_neg h1, if_neg h2, List.append_nil]

theorem foldl_statusUw_mmsis (m : String) (t : Int) :
    ∀ (ps : List (String × List Int)) (tl : Timeline),
    ((ps.foldl (statusUw m) tl).mmsis t)
    = tl.mmsis t ++ (ps.map (occStatusUw tl.lo tl.hi t m)).flatten
  | [], tl => by simp
  | p :: ps, tl => by
    rw [List.foldl_cons, foldl_statusUw_mmsis m t ps (statusUw m tl p),
      statusUw_lo, statusUw_hi, statusUw_mmsis, List.map_cons, List.flatten_cons,
      List.append_assoc]

theorem foldl_statusNuw_mmsis (m : String) (t : Int) :
    ∀ (ps : List (String × List Int)) (tl : Timeline),
    ((ps.foldl (statusNuw m) tl).mmsis t)
    = tl.mmsis t ++ (ps.map (occStatusNuw tl.lo tl.hi t m)).flatten
  | [], tl => by simp
  | p :: ps, tl => by
    rw [List.foldl_cons, foldl_statusNuw_mmsis m t ps (statusNuw m tl p),
      statusNuw_lo, statusNuw_hi, statusNuw_mmsis, List.map_cons,
      List.flatten_cons, List.append_assoc]

theorem shipUw_mmsis (tl : Timeline) (ship : Ship) (t : Int) :
    (shipUw tl ship).mmsis t = tl.mmsis t ++ occShipUw tl.lo tl.hi t ship := by
  unfold shipUw occShipUw
  by_cases h : ship.total < 3
  · rw [if_pos h, if_pos h, List.append_nil]
  · rw [if_neg h, if_neg h, foldl_statusUw_mmsis]

theorem shipNuw_mmsis (tl : Timeline) (ship : Ship) (t : Int) :
    (shipNuw tl ship).mmsis t = tl.mmsis t ++ occShipNuw tl.lo tl.hi t ship := by
  unfold shipNuw occShipNuw
  by_cases h : ship.total < 3
  · rw [if_pos h, if_pos h, List.append_nil]
  · rw [if_neg h, if_neg h, foldl_statusNuw_mmsis]

theorem foldl_shipUw_mmsis (t : Int) :
    ∀ (ships : List Ship) (tl : Timeline),
    ((ships.foldl shipUw tl).mmsis t)
    = tl.mmsis t ++ (ships.map (occShipUw tl.lo tl.hi t)).flatten
  | [], tl => by simp
  | ship :: ships, tl => by
    rw [List.foldl_cons, foldl_shipUw_mmsis t ships (shipUw tl ship),
      shipUw_lo, shipUw_hi, shipUw_mmsis, List.map_cons, List.flatten_cons,
      List.append_assoc]

theorem foldl_shipNuw_mmsis (t : Int) :
    ∀ (ships : List Ship) (tl : Timeline),
    ((ships.foldl shipNuw tl).mmsis t)
    = tl.mmsis t ++ (ships.map (occShipNuw tl.lo tl.hi t)).flatten
  | [], tl => by simp
  | ship :: ships, tl => by
    rw [List.foldl_cons, foldl_shipNuw_mmsis t ships (shipNuw tl ship),
      shipNuw_lo, shipNuw_hi, shipNuw_mmsis, List.map_cons, List.flatten_cons,
      List.append_assoc]

theorem buildAug_uw_mmsis (lo hi : Int) (ships : List Ship) (t : Int) :
    (buildAug lo hi ships).uw.mmsis t
    = (ships.map (occShipUw lo hi t)).flatten := by
  rw [buildAug_uw, foldl_shipUw_mmsis]
  rfl

theorem buildAug_nuw_mmsis (lo hi : Int) (ships : List Ship) (t : Int) :
    (buildAug lo hi ships).nuw.mmsis t
    = (ships.map (occShipNuw lo hi t)).flatten := by
  rw [buildAug_nuw, foldl_shipNuw_mmsis]
  rfl

/-- A run covers second t inside the allocated index lo..hi when its
first and last elements bracket t. -/
def runCovers (lo hi t : Int) (r : List Int) : Prop :=
  ∃ a b, r.head? = some a ∧ r.getLast? = some b
    ∧ a ≤ t ∧ t ≤ b ∧ lo ≤ t ∧ t ≤ hi

theorem mem_occRun {lo hi t : Int} {m m' : String} {r : List Int} :
    m ∈ occRun lo hi t m' r ↔ m = m' ∧ runCovers lo hi t r := by
  unfold occRun runCovers
  cases hh : r.head? <;> cases hl : r.getLast? <;> simp [hh, hl]
  rename_i a b
  by_cases hc : a ≤ t ∧ t ≤ b ∧ lo ≤ t ∧ t ≤ hi <;> simp [hc]

theorem mem_occStatusUw {lo hi t : Int} {m m' : String} {p : String × List Int} :
    m ∈ occStatusUw lo hi t m' p
    ↔ m = m' ∧ p.1 ∈ status_for_underway
      ∧ ∃ r ∈ splitRuns (timestamp_diff p.1) p.2, runCovers lo hi t r := by
  unfold occStatusUw
  by_cases h1 : p.1 ∈ status_for_underway
  · rw [if_pos h1]
    simp only [List.mem_flatten, List.mem_map]
    constructor
    · rintro ⟨l, ⟨r, hr, rfl⟩, hm⟩
      obtain ⟨rfl, hcov⟩ := mem_occRun.mp hm
      exact ⟨rfl, h1, r, hr, hcov⟩
    · rintro ⟨rfl, -, r, hr, hcov⟩
      exact ⟨occRun lo hi t m r, ⟨r, hr, rfl⟩, mem_occRun.mpr ⟨rfl, hcov⟩⟩
  · simp [h1]

theorem mem_occStatusNuw {lo hi t : Int} {m m' : String} {p : String × List Int} :
    m ∈ occStatusNuw lo hi t m' p
    ↔ m = m' ∧ p.1 ∉ status_for_underway ∧ p.1 ∈ status_for_not_underway
      ∧ ∃ r ∈ splitRuns (timestamp_diff p.1) p.2, runCovers lo hi t r := by
  unfold occStatusNuw
  by_cases h1 : p.1 ∈ status_for_underway
  · simp [h1]
  · by_cases h2 : p.1 ∈ status_for_not_underway
    · rw [if_neg h1, if_pos h2]
      simp only [List.mem_flatten, List.mem_map]
      constructor
      · rintro ⟨l, ⟨r, hr, rfl⟩, hm⟩
        obtain ⟨rfl, hcov⟩ := mem_occRun.mp hm
        exact ⟨rfl, h1, h2, r, hr, hcov⟩
      · rintro ⟨rfl, -, -, r, hr, hcov⟩
        exact ⟨occRun lo hi t m r, ⟨r, hr, rfl⟩, mem_occRun.mpr ⟨rfl, hcov⟩⟩
    · simp [h1, h2]

theorem mem_occShipUw {lo hi t : Int} {m : String} {ship : Ship} :
    m ∈ occShipUw lo hi t ship
    ↔ ship.mmsi = m ∧ 3 ≤ ship.total
      ∧ ∃ p ∈ ship.statuses, p.1 ∈ status_for_underway
        ∧ ∃ r ∈ splitRuns (timestamp_diff p.1) p.2, runCovers lo hi t r := by
  unfold occShipUw
  by_cases h : ship.total < 3
  · rw [if_pos h]
    constructor
    · intro hm
      exact absurd hm (List.not_mem_nil m)
    · rintro ⟨-, h3, -⟩
      omega
  · rw [if_neg h]
    simp only [List.mem_flatten, List.mem_map]
    constructor
    · rintro ⟨l, ⟨p, hp, rfl⟩, hm⟩
      obtain ⟨rfl, huw, r, hr, hcov⟩ := mem_occStatusUw.mp hm
      exact ⟨rfl, by omega, p, hp, huw, r, hr, hcov⟩
    · rintro ⟨rfl, -, p, hp, huw, r, hr, hcov⟩
      exact ⟨occStatusUw lo hi t ship.mmsi p, ⟨p, hp, rfl⟩,
        mem_occStatusUw.mpr ⟨rfl, huw, r, hr, hcov⟩⟩

theorem mem_occShipNuw {lo hi t : Int} {m : String} {ship : Ship} :
    m ∈ occShipNuw lo hi t ship
    ↔ ship.mmsi = m ∧ 3 ≤ ship.total
      ∧ ∃ p ∈ ship.statuses, p.1 ∉ status_for_underway
        ∧ p.1 ∈ status_for_not_underway
        ∧ ∃ r ∈ splitRuns (timestamp_diff p.1) p.2, runCovers lo hi t r := by
  unfold occShipNuw
  by_cases h : ship.total < 3
  · rw [if_pos h]
    constructor
    · intro hm
      exact absurd hm (List.not_mem_nil m)
    · rintro ⟨-, h3, -⟩
      omega
  · rw [if_neg h]
    simp only [List.mem_flatten, List.mem_map]
    constructor
    · rintro ⟨l, ⟨p, hp, rfl⟩, hm⟩
      obtain ⟨rfl, huw, hnuw, r, hr, hcov⟩ := mem_occStatusNuw.mp hm
      exact ⟨rfl, by omega, p, hp, huw, hnuw, r, hr, hcov⟩
    · rintro ⟨rfl, -, p, hp, huw, hnuw, r, hr, hcov⟩
      exact ⟨occStatusNuw lo hi t ship.mmsi p, ⟨p, hp, rfl⟩,
        mem_occStatusNuw.mpr ⟨rfl, huw, hnuw, r, hr, hcov⟩⟩

/-- The two status lists are disjoint. -/
theorem not_underway_disjoint :
    ∀ st ∈ status_for_not_underway, st ∉ status_for_underway := by decide

/-- C2 (amended).  Timeline consistency: at every second the stored
count equals the number of entries of the stored mmsis cell, and the
mmsis cell holds exactly the ships a maximal run of whose timestamps of
a matching-classification status covers that second — including
single-sample runs, which update the timeline although no activity
interval is recorded for them. -/
theorem timeline_consistency (lo hi t : Int) (ships : List Ship) (m : String) :
    ((buildAug lo hi ships).uw.count t
      = ((buildAug lo hi ships).uw.mmsis t).length)
    ∧ ((buildAug lo hi ships).nuw.count t
      = ((buildAug lo hi ships).nuw.mmsis t).length)
    ∧ (m ∈ (buildAug lo hi ships).uw.mmsis t
        ↔ ∃ ship ∈ ships, ship.mmsi = m ∧ 3 ≤ ship.total
          ∧ ∃ p ∈ ship.statuses, p.1 ∈ status_for_underway
            ∧ ∃ r ∈ splitRuns (timestamp_diff p.1) p.2, runCovers lo hi t r)
    ∧ (m ∈ (buildAug lo hi ships).nuw.mmsis t
        ↔ ∃ ship ∈ ships, ship.mmsi = m ∧ 3 ≤ ship.total
          ∧ ∃ p ∈ ship.statuses, p.1 ∈ status_for_not_underway
            ∧ ∃ r ∈ splitRuns (timestamp_diff p.1) p.2, runCovers lo hi t r) := by
  refine ⟨countLaw_buildAug_uw lo hi ships t, countLaw_buildAug_nuw lo hi ships t,
    ?_, ?_⟩
  · rw [buildAug_uw_mmsis]
    simp only [List.mem_flatten, List.mem_map]
    constructor
    · rintro ⟨l, ⟨ship, hs, rfl⟩, hm⟩
      exact ⟨ship, hs, mem_occShipUw.mp hm⟩
    · rintro ⟨ship, hs, h⟩
      exact ⟨occShipUw lo hi t ship, ⟨ship, hs, rfl⟩, mem_occShipUw.mpr h⟩
  · rw [buildAug_nuw_mmsis]
    simp only [List.mem_flatten, List.mem_map]
    constructor
    · rintro ⟨l, ⟨ship, hs, rfl⟩, hm⟩
      obtain ⟨hmm, h3, p, hp, -, hnuw, hrest⟩ := mem_occShipNuw.mp hm
      exact ⟨ship, hs, hmm, h3, p, hp, hnuw, hrest⟩
    · rintro ⟨ship, hs, hmm, h3, p, hp, hnuw, hrest⟩
      exact ⟨occShipNuw lo hi t ship, ⟨ship, hs, rfl⟩,
        mem_occShipNuw.mpr
          ⟨hmm, h3, p, hp, not_underway_disjoint p.1 hnuw, hnuw, hrest⟩⟩

/-- Ship group of the counterexample to C2 as stated: three underway
reports at 100, 105 and 400; with threshold 10 the runs are 100..105
and the single sample 400. -/
def exShipA : Ship := ⟨"A", [("UnderWayUsingEngine", [100, 105, 400])]⟩

/-- The augmentation pass on that single group; the allocated index
50..550 is the one lines 326..329 compute from a recording entry with
start timestamp 50 and duration 500. -/
def exAug : AugState := buildAug 50 550 [exShipA]

/-- Counterexample to C2 as stated: at second 400 the underway cell of
the built timeline counts the single ship and lists its mmsi, yet the
only recorded underway activity interval of that ship is (100, 105),
which does not cover 400 — the single-sample run at 400 updated the
timeline without being recorded in the activity store. -/
theorem timeline_consistency_counterexample :
    exAug.uw.mmsisAt 400 = some ["A"]
    ∧ exAug.uw.countAt 400 = some 1
    ∧ shpGet exAug.shp "A" "UnderWayUsingEngine" = [(100, 105)]
    ∧ ¬((100 : Int) ≤ 400 ∧ (400 : Int) ≤ 105) := by decide

/-- C7 (amended).  A point lookup of either timeline at a second
outside the allocated index min_t..max_t fails with a KeyError
(modelled as none) instead of returning a zero count or an empty
occupant list. -/
theorem out_of_range_query (lo hi t : Int) (ships : List Ship)
    (h : t < lo ∨ hi < t) :
    (buildAug lo hi ships).uw.countAt t = none
    ∧ (buildAug lo hi ships).uw.mmsisAt t = none
    ∧ (buildAug lo hi ships).nuw.countAt t = none
    ∧ (buildAug lo hi ships).nuw.mmsisAt t = none := by
  unfold Timeline.countAt Timeline.mmsisAt
  rw [buildAug_uw_lo, buildAug_uw_hi, buildAug_nuw_lo, buildAug_nuw_hi]
  have hc : ¬(lo ≤ t ∧ t ≤ hi) := by omega
  simp [hc]

/-- Witness for C7 (amended) at the allocated index 0..10 and the
out-of-range second 20. -/
theorem out_of_range_query_witness :
    ((20 : Int) < 0 ∨ (10 : Int) < 20)
    ∧ ((buildAug 0 10 []).uw.countAt 20 = none
      ∧ (buildAug 0 10 []).uw.mmsisAt 20 = none
      ∧ (buildAug 0 10 []).nuw.countAt 20 = none
      ∧ (buildAug 0 10 []).nuw.mmsisAt 20 = none) :=
  ⟨by decide, out_of_range_query 0 10 20 [] (by decide)⟩

/-- Counterexample to C7 as stated: second 10 precedes the allocated
index 50..550 of the concrete build, and the lookups fail (none)
rather than returning a zero count and an empty occupant list. -/
theorem out_of_range_query_counterexample :
    exAug.uw.countAt 10 = none
    ∧ exAug.uw.countAt 10 ≠ some 0
    ∧ exAug.uw.mmsisAt 10 = none
    ∧ exAug.uw.mmsisAt 10 ≠ some [] := by decide

/-! ### The shp dictionary along the loops -/

theorem lookupKey_setKey_self {β : Type} :
    ∀ (l : List (String × β)) (k : String) (v : β),
    lookupKey (setKey l k v) k = some v
  | [], k, v => by simp [setKey, lookupKey]
  | (k', v') :: rest, k, v => by
    by_cases hk : k' = k
    · simp [setKey, lookupKey, hk]
    · simp [setKey, lookupKey, hk]
      exact lookupKey_setKey_self rest k v

theorem lookupKey_modifyKey_self {β : Type} (f : β → β) :
    ∀ (l : List (String × β)) (k : String) (v : β),
    lookupKey l k = some v → lookupKey (modifyKey f l k) k = some (f v)
  | [], k, v => by simp [lookupKey]
  | (k', v') :: rest, k, v => by
    by_cases hk : k' = k
    · simp [modifyKey, lookupKey, hk]
      intro h
      rw [h]
    · simp [modifyKey, lookupKey, hk]
      exact lookupKey_modifyKey_self f rest k v

/-- Effect of one run on the shp dictionary (lines 412..417). -/
def shpStep (m st : String) (shp : Shp) (r : List Int) : Shp :=
  match r.head?, r.getLast? with
  | some a, some b => if a ≠ b then shpAppend shp m st (a, b) else shp
  | _, _ => shp

theorem runStep_shp (m st : String) (s : AugState) (r : List Int) :
    (runStep m st s r).shp = shpStep m st s.shp r := by
  unfold runStep shpStep
  cases hh : r.head? <;> cases hl : r.getLast?
  · rfl
  · rfl
  · rfl
  · rename_i a b
    by_cases h1 : st ∈ status_for_underway <;>
    by_cases h2 : st ∈ status_for_not_underway <;>
    by_cases hab : a = b <;>
    simp [h1, h2, hab]

theorem processStatus_shp (m : String) (s : AugState) (p : String × List Int) :
    (processStatus m s p).shp
    = (splitRuns (timestamp_diff p.1) p.2).foldl (shpStep m p.1)
        (shpSetStatus s.shp m p.1) := by
  unfold processStatus
  rw [foldl_proj (runStep m p.1) (shpStep m p.1) AugState.shp
    (fun s r => runStep_shp m p.1 s r)]

theorem lookupKey_shpAppend_self (shp : Shp) (m st : String) (iv : Int × Int)
    (d : StatusMap) (l : List (Int × Int))
    (hm : lookupKey shp m = some d) (hst : lookupKey d st = some l) :
    lookupKey (shpAppend shp m st iv) m = some (modifyKey (· ++ [iv]) d st)
    ∧ lookupKey (modifyKey (· ++ [iv]) d st) st = some (l ++ [iv]) := by
  exact ⟨lookupKey_modifyKey_self _ shp m d hm,
    lookupKey_modifyKey_self _ d st l hst⟩

theorem shpStep_head_none (m st : String) (shp : Shp) (r : List Int)
    (hh : r.head? = none) : shpStep m st shp r = shp := by
  unfold shpStep
  rw [hh]

theorem shpStep_last_none (m st : String) (shp : Shp) (r : List Int)
    (hl : r.getLast? = none) : shpStep m st shp r = shp := by
  unfold shpStep
  rw [hl]
  cases r.head? <;> rfl

theorem shpStep_some (m st : String) (shp : Shp) (r : List Int) (a b : Int)
    (hh : r.head? = some a) (hl : r.getLast? = some b) :
    shpStep m st shp r = if a ≠ b then shpAppend shp m st (a, b) else shp := by
  unfold shpStep
  rw [hh, hl]

theorem fold_shpStep_get (m st : String) :
    ∀ (runs : List (List Int)) (shp : Shp) (d : StatusMap)
      (l : List (Int × Int)),
    lookupKey shp m = some d → lookupKey d st = some l →
    shpGet (runs.foldl (shpStep m st) shp) m st = l ++ runs.filterMap runInterval
  | [], shp, d, l, hm, hst => by simp [shpGet, hm, hst]
  | r :: rs, shp, d, l, hm, hst => by
    rw [List.foldl_cons]
    cases hh : r.head? with
    | none =>
      rw [shpStep_head_none m st shp r hh,
        fold_shpStep_get m st rs shp d l hm hst]
      simp [List.filterMap_cons, runInterval, hh]
    | some a =>
      cases hl : r.getLast? with
      | none =>
        rw [shpStep_last_none m st shp r hl,
          fold_shpStep_get m st rs shp d l hm hst]
        simp [List.filterMap_cons, runInterval, hh, hl]
      | some b =>
        rw [shpStep_some m st shp r a b hh hl]
        by_cases hab : a = b
        · rw [if_neg (by simp [hab]),
            fold_shpStep_get m st rs shp d l hm hst]
          simp [List.filterMap_cons, runInterval, hh, hl, hab]
        · rw [if_pos hab]
          obtain ⟨hm', hst'⟩ :=
            lookupKey_shpAppend_self shp m st (a, b) d l hm hst
          rw [fold_shpStep_get m st rs (shpAppend shp m st (a, b))
            (modifyKey (· ++ [(a, b)]) d st) (l ++ [(a, b)]) hm' hst']
          simp [List.filterMap_cons, runInterval, hh, hl, hab]

/-- C10.  Other-status policy: a status in neither classification list
still runs segmentation with the 180-second threshold and records its
multi-sample runs in the shp dictionary under that status, while both
concurrency timelines are left entirely unchanged. -/
theorem other_status_policy (s : AugState) (m st : String) (ts : List Int)
    (hm : (lookupKey s.shp m).isSome)
    (h1 : st ∉ status_for_underway) (h2 : st ∉ status_for_not_underway) :
    (processStatus m s (st, ts)).uw = s.uw
    ∧ (processStatus m s (st, ts)).nuw = s.nuw
    ∧ shpGet (processStatus m s (st, ts)).shp m st
      = segmentIntervals 180 ts := by
  obtain ⟨d, hd⟩ := Option.isSome_iff_exists.mp hm
  have h180 : timestamp_diff st = 180 := by
    unfold timestamp_diff
    simp [h1, h2]
  refine ⟨?_, ?_, ?_⟩
  · rw [processStatus_uw]
    unfold statusUw
    simp [h1]
  · rw [processStatus_nuw]
    unfold statusNuw
    simp [h1, h2]
  · rw [processStatus_shp]
    have hm' : lookupKey (shpSetStatus s.shp m st) m = some (setKey d st []) :=
      lookupKey_modifyKey_self _ s.shp m d hd
    have hst' : lookupKey (setKey d st []) st = some ([] : List (Int × Int)) :=
      lookupKey_setKey_self d st []
    show shpGet ((splitRuns (timestamp_diff (st, ts).1) (st, ts).2).foldl
      (shpStep m (st, ts).1) (shpSetStatus s.shp m (st, ts).1)) m st = _
    rw [fold_shpStep_get m st _ _ _ _ hm' hst']
    show [] ++ segmentIntervals (timestamp_diff st) ts = segmentIntervals 180 ts
    rw [List.nil_append, h180]

/-- A concrete augmentation state holding ship A and empty timelines
over the index 0..10. -/
def exState10 : AugState := ⟨initTimeline 0 10, initTimeline 0 10, [("A", [])]⟩

/-- Witness for C10 with the status Fishing, absent from both lists, on
a state holding ship A. -/
theorem other_status_policy_witness :
    (lookupKey exState10.shp "A").isSome = true
    ∧ ("Fishing" ∉ status_for_underway)
    ∧ ("Fishing" ∉ status_for_not_underway)
    ∧ ((processStatus "A" exState10 ("Fishing", [100, 105, 400])).uw
        = exState10.uw
      ∧ (processStatus "A" exState10 ("Fishing", [100, 105, 400])).nuw
        = exState10.nuw
      ∧ shpGet (processStatus "A" exState10 ("Fishing", [100, 105, 400])).shp
          "A" "Fishing" = segmentIntervals 180 [100, 105, 400]) :=
  ⟨by decide, by decide, by decide,
    other_status_policy exState10
      "A" "Fishing" [100, 105, 400] (by decide) (by decide) (by decide)⟩

/-! ### Persisting the shp dictionary (get_shp_dictionary, lines 536..547)

The dictionary is written with json.dump and read back with json.load.
In memory every interval is the tuple appended at line 417; JSON has no
tuples, so json.dump writes a two-element array and json.load returns a
two-element list. -/

/-- A Python value standing for one interval entry of the in-memory
shp dictionary: the augmentation pass appends tuples, while json.load
produces lists. -/
inductive PyIval where
  | tup (a b : Int) : PyIval
  | lst (a b : Int) : PyIval
deriving DecidableEq

abbrev PyStatusMap := List (String × List PyIval)
abbrev PyShp := List (String × PyStatusMap)

/-- The in-memory dictionary produced by the augmentation pass: every
recorded interval is a tuple (line 417). -/
def toPyShp (shp : Shp) : PyShp :=
  shp.map (fun p =>
    (p.1, p.2.map (fun q => (q.1, q.2.map (fun iv => PyIval.tup iv.1 iv.2)))))

/-- JSON documents as written by json.dump and read by json.load. -/
inductive Json where
  | num (n : Int) : Json
  | str (s : String) : Json
  | arr (xs : List Json) : Json
  | obj (kvs : List (String × Json)) : Json

/-- json.dump of one interval: both tuples and lists serialize to a
two-element array. -/
def dumpIval : PyIval → Json
  | .tup a b => .arr [.num a, .num b]
  | .lst a b => .arr [.num a, .num b]

/-- json.dump of the dictionary: objects keyed by mmsi, then status. -/
def dumpShp (s : PyShp) : Json :=
  .obj (s.map (fun p =>
    (p.1, .obj (p.2.map (fun q => (q.1, .arr (q.2.map dumpIval)))))))

/-- json.load of one interval: a two-element array becomes a list. -/
def loadIval : Json → Option PyIval
  | .arr [.num a, .num b] => some (.lst a b)
  | _ => none

def loadIvalList : Json → Option (List PyIval)
  | .arr xs => xs.mapM loadIval
  | _ => none

def loadStatusMap : Json → Option PyStatusMap
  | .obj kvs => kvs.mapM (fun p => (loadIvalList p.2).map (fun l => (p.1, l)))
  | _ => none

def loadShp : Json → Option PyShp
  | .obj kvs => kvs.mapM (fun p => (loadStatusMap p.2).map (fun d => (p.1, d)))
  | _ => none

/-- Canonical form reached after one round trip: every tuple has become
a list; keys, nesting, interval order and endpoint values are kept. -/
def canonIval : PyIval → PyIval
  | .tup a b => .lst a b
  | .lst a b => .lst a b

def canonShp (s : PyShp) : PyShp :=
  s.map (fun p => (p.1, p.2.map (fun q => (q.1, q.2.map canonIval))))

theorem loadIval_dumpIval (iv : PyIval) : loadIval (dumpIval iv) = some (canonIval iv) := by
  cases iv <;> rfl

theorem loadIvalList_dump (l : List PyIval) :
    loadIvalList (.arr (l.map dumpIval)) = some (l.map canonIval) := by
  induction l with
  | nil => rfl
  | cons iv l ih =>
    simp only [loadIvalList, List.map_cons, List.mapM_cons, loadIval_dumpIval]
    simp only [loadIvalList] at ih
    rw [ih]
    rfl

theorem loadStatusMap_dump (d : PyStatusMap) :
    loadStatusMap (.obj (d.map (fun q => (q.1, .arr (q.2.map dumpIval)))))
    = some (d.map (fun q => (q.1, q.2.map canonIval))) := by
  induction d with
  | nil => rfl
  | cons q d ih =>
    simp only [loadStatusMap, List.map_cons, List.mapM_cons, loadIvalList_dump]
    simp only [loadStatusMap] at ih
    rw [ih]
    rfl

/-- C8 (amended).  Round trip of the persisted shp dictionary: the
reload reproduces the mmsi keys, status keys, interval order and
endpoint values exactly, but every interval returns as a two-element
list, so the reloaded value is the canonical form of the store, not the
identical in-memory value. -/
theorem shp_round_trip (s : PyShp) : loadShp (dumpShp s) = some (canonShp s) := by
  unfold dumpShp canonShp
  induction s with
  | nil => rfl
  | cons p s ih =>
    simp only [loadShp, List.map_cons, List.mapM_cons, loadStatusMap_dump]
    simp only [loadShp] at ih
    rw [ih]
    rfl

/-- Counterexample to C8 as stated: the store produced by the
augmentation pass on the concrete input holds the tuple (100, 105);
after one round trip the entry is the list form, so reloading does not
yield the identical mapping. -/
theorem shp_round_trip_counterexample :
    loadShp (dumpShp (toPyShp exAug.shp)) = some (canonShp (toPyShp exAug.shp))
    ∧ loadShp (dumpShp (toPyShp exAug.shp)) ≠ some (toPyShp exAug.shp)
    ∧ toPyShp exAug.shp
      = [("A", [("UnderWayUsingEngine", [PyIval.tup 100 105])])] := by
  refine ⟨?_, ?_, ?_⟩ <;> decide

/-! ### Ship selection and audio export (export_audio_clips, lines 648..799)

The augmented AIS rows are filtered to candidate groups; each group
resolves a winning ship among its underway occupants, excluding ships
already selected; the winner's interval is cut to at most 540 seconds
for file resolution; the recordings are found by taking the last
metadata row whose start timestamp is strictly below the window
endpoints (an IndexError aborts the run when none qualifies); the clip
is sliced from start_t to start_t plus 540 seconds and written. -/

structure AisRow where
  timestamp : Int
  mmsi : String
  shiptype : String
  status : String
  distance : ℚ
  shipcount_uw : Nat
  mmsis_uw : List String
deriving DecidableEq

structure HmdRow where
  name : String
  start_timestamp : Int
deriving DecidableEq

/-- Candidate filtering (lines 695..700). -/
def candidateRows (ais : List AisRow) (maxN : Nat) (maxD : ℚ) : List AisRow :=
  ais.filter (fun r => decide (r.status = "UnderWayUsingEngine"
    ∧ r.shipcount_uw ≤ maxN ∧ r.distance ≤ maxD))

/-- The representative resolved for a candidate group: distance, mmsi,
ship type, concurrent count and winning interval (lines 750..755). -/
structure Best where
  dist : ℚ
  mmsi : String
  shiptype : String
  shipcount : Nat
  interval : Int × Int
deriving DecidableEq

/-- The running minimum: distance_m starts at +Infinity and mmsi_m at
the empty sentinel (lines 710..714), modelled as none. -/
def betterB (d : ℚ) : Option Best → Bool
  | none => true
  | some b => decide (d < b.dist)

/-- Body of the loop over a group's occupants (lines 716..755):
already-selected ships are skipped, the first covering underway
interval is looked up, the earliest row of the ship inside the interval
and distance bound is taken, and a closer row displaces the running
minimum. -/
def occStep (ais : List AisRow) (shp : Shp) (maxD : ℚ) (t : Int)
    (selected : List String) (best : Option Best) (mmsi : String) : Option Best :=
  if mmsi ∈ selected then best
  else
    match (shpGet shp mmsi "UnderWayUsingEngine").find?
        (fun iv => decide (iv.1 ≤ t ∧ t ≤ iv.2)) with
    | none => best
    | some iv =>
      match (ais.filter (fun r => decide (r.mmsi = mmsi ∧ iv.1 ≤ r.timestamp
          ∧ r.timestamp ≤ iv.2 ∧ r.distance ≤ maxD))).head? with
      | none => best
      | some rc =>
        if betterB rc.distance best then
          some ⟨rc.distance, rc.mmsi, rc.shiptype, rc.shipcount_uw, iv⟩
        else best

/-- Resolution of one candidate group over its occupant list. -/
def resolveGroup (ais : List AisRow) (shp : Shp) (maxD : ℚ)
    (selected : List String) (g : AisRow) : Option Best :=
  g.mmsis_uw.foldl (occStep ais shp maxD g.timestamp selected) none

/-- File resolution (lines 774..779): the last metadata row whose start
timestamp is strictly below t; .iloc[-1] raises an IndexError (none)
when no row qualifies. -/
def findRow (hmd : List HmdRow) (t : Int) : Option HmdRow :=
  (hmd.filter (fun h => decide (h.start_timestamp < t))).getLast?

/-- One exported clip: the source recordings concatenated, the slice
offsets in milliseconds relative to the first recording (also embedded
in the output filename), and the label attributes. -/
structure Clip where
  sources : List String
  start_t : Int
  stop_t : Int
  mmsi : String
  shiptype : String
  dist : ℚ
deriving DecidableEq

/-- State of the export loop: clips written so far, the selected-mmsis
accumulator of line 705, and whether an uncaught IndexError has ended
the run. -/
structure ExpSt where
  nClips : Nat
  selected : List String
  clips : List Clip
  aborted : Bool
deriving DecidableEq

/-- Body of the loop over candidate groups (lines 706..799).  The
winner is appended to the selected list (line 762) before file
resolution, so an IndexError still leaves it selected; on success the
slice runs from start_t to start_t plus 540 000 ms (line 795)
regardless of where the winning interval stops. -/
def exportStep (ais : List AisRow) (hmd : List HmdRow) (shp : Shp) (maxD : ℚ)
    (st : ExpSt) (g : AisRow) : ExpSt :=
  if st.aborted then st
  else
    match resolveGroup ais shp maxD st.selected g with
    | none => st
    | some b =>
      let selected' := st.selected ++ [b.mmsi]
      let start0 := b.interval.1
      let start1 := min (b.interval.1 + 540) b.interval.2
      match findRow hmd start0, findRow hmd start1 with
      | some row0, some row1 =>
        let startT := (start0 - row0.start_timestamp) * 1000
        let stopT := startT + 540 * 1000
        let sources := if row0.start_timestamp = row1.start_timestamp
          then [row0.name] else [row0.name, row1.name]
        { nClips := st.nClips + 1, selected := selected',
          clips := st.clips
            ++ [⟨sources, startT, stopT, b.mmsi, b.shiptype, b.dist⟩],
          aborted := false }
      | _, _ => { st with selected := selected', aborted := true }

/-- The export pass over all candidate groups. -/
def export_audio_clips (ais : List AisRow) (hmd : List HmdRow) (shp : Shp)
    (maxN : Nat) (maxD : ℚ) : ExpSt :=
  (candidateRows ais maxN maxD).foldl (exportStep ais hmd shp maxD)
    ⟨0, [], [], false⟩

/-- The value a call of export_audio_clips delivers: none when the run
died of the uncaught IndexError, otherwise the Python return value —
and the function body contains no return statement (lines 704..799), so
a completed call returns None, modelled as some none. -/
def export_audio_clips_return (ais : List AisRow) (hmd : List HmdRow)
    (shp : Shp) (maxN : Nat) (maxD : ℚ) : Option (Option Nat) :=
  if (export_audio_clips ais hmd shp maxN maxD).aborted then none
  else some none

theorem mem_of_head_opt {α : Type} {l : List α} {a : α} (h : l.head? = some a) :
    a ∈ l := by
  cases l with
  | nil => simp at h
  | cons x xs =>
    simp only [List.head?_cons, Option.some.injEq] at h
    subst h
    exact List.mem_cons_self x xs

/-- A resolved representative was never among the already-selected
mmsis: the occupant loop skips selected ships before they can reach the
running minimum. -/
theorem occStep_not_selected (ais : List AisRow) (shp : Shp) (maxD : ℚ)
    (t : Int) (sel : List String) (best : Option Best) (mmsi : String)
    (hbest : ∀ b, best = some b → b.mmsi ∉ sel) :
    ∀ b, occStep ais shp maxD t sel best mmsi = some b → b.mmsi ∉ sel := by
  intro b hb
  unfold occStep at hb
  split at hb
  · exact hbest b hb
  · rename_i hmem
    split at hb
    · exact hbest b hb
    · rename_i iv hiv
      split at hb
      · exact hbest b hb
      · rename_i rc hrc
        split at hb
        · cases hb
          have hmemf := mem_of_head_opt hrc
          have hp := of_decide_eq_true (List.mem_filter.mp hmemf).2
          show rc.mmsi ∉ sel
          rw [hp.1]
          exact hmem
        · exact hbest b hb

theorem resolveGroup_not_selected (ais : List AisRow) (shp : Shp) (maxD : ℚ)
    (sel : List String) (g : AisRow) (b : Best)
    (h : resolveGroup ais shp maxD sel g = some b) : b.mmsi ∉ sel := by
  unfold resolveGroup at h
  have := foldl_preserve (fun best => ∀ b, best = some b → b.mmsi ∉ sel)
    (occStep ais shp maxD g.timestamp sel)
    (fun best mmsi hbest =>
      occStep_not_selected ais shp maxD g.timestamp sel best mmsi hbest)
    g.mmsis_uw none (by intro b hb; cases hb)
  exact this b h

/-- The selected list of one export step either stays unchanged or
grows by exactly the resolved winner. -/
theorem exportStep_selected (ais : List AisRow) (hmd : List HmdRow) (shp : Shp)
    (maxD : ℚ) (st : ExpSt) (g : AisRow) :
    (exportStep ais hmd shp maxD st g).selected = st.selected
    ∨ ∃ b, resolveGroup ais shp maxD st.selected g = some b
      ∧ (exportStep ais hmd shp maxD st g).selected
        = st.selected ++ [b.mmsi] := by
  unfold exportStep
  split
  · exact Or.inl rfl
  · split
    · exact Or.inl rfl
    · rename_i b hres
      refine Or.inr ⟨b, hres, ?_⟩
      dsimp only
      split
      · rfl
      · rfl

theorem exportStep_nodup (ais : List AisRow) (hmd : List HmdRow) (shp : Shp)
    (maxD : ℚ) (st : ExpSt) (g : AisRow) (h : st.selected.Nodup) :
    (exportStep ais hmd shp maxD st g).selected.Nodup := by
  rcases exportStep_selected ais hmd shp maxD st g with heq | ⟨b, hres, heq⟩
  · rwa [heq]
  · rw [heq, ← List.concat_eq_append]
    exact List.Nodup.concat
      (resolveGroup_not_selected ais shp maxD st.selected g b hres) h

/-- C3.  Selection uniqueness: across one full run of the export pass,
the accumulated list of winning representative mmsis has no duplicate —
once an mmsi is selected, later candidate groups skip it during
occupant resolution, so it can never win again. -/
theorem selection_uniqueness (ais : List AisRow) (hmd : List HmdRow)
    (shp : Shp) (maxN : Nat) (maxD : ℚ) :
    (export_audio_clips ais hmd shp maxN maxD).selected.Nodup := by
  unfold export_audio_clips
  exact foldl_preserve (fun st => st.selected.Nodup)
    (exportStep ais hmd shp maxD)
    (fun st g hn => exportStep_nodup ais hmd shp maxD st g hn)
    (candidateRows ais maxN maxD) ⟨0, [], [], false⟩ List.nodup_nil

/-! ### Concrete export scenarios -/

/-- One recording starting at 900. -/
def exHmdA : List HmdRow := [⟨"rec0", 900⟩]

/-- Ship X with one recorded underway interval (1000, 1100), shorter
than 540 seconds. -/
def exShpA : Shp := [("X", [("UnderWayUsingEngine", [(1000, 1100)])])]

/-- One candidate group at timestamp 1050 listing X as occupant. -/
def exAisA : List AisRow :=
  [⟨1050, "X", "Tug", "UnderWayUsingEngine", 100, 1, ["X"]⟩]

/-- Three consecutive recordings starting at 0, 100 and 200. -/
def exHmdB : List HmdRow := [⟨"rec0", 0⟩, ⟨"rec1", 100⟩, ⟨"rec2", 200⟩]

/-- Ship Y with an underway interval (50, 600) spanning all three. -/
def exShpB : Shp := [("Y", [("UnderWayUsingEngine", [(50, 600)])])]

/-- One candidate group at timestamp 60 listing Y as occupant. -/
def exAisB : List AisRow :=
  [⟨60, "Y", "Tug", "UnderWayUsingEngine", 50, 1, ["Y"]⟩]

/-- One recording starting only at 5000, after both intervals below. -/
def exHmdC : List HmdRow := [⟨"rec9", 5000⟩]

/-- Ships A and B with underway intervals before any recording. -/
def exShpC : Shp :=
  [("A", [("UnderWayUsingEngine", [(1000, 1100)])]),
   ("B", [("UnderWayUsingEngine", [(2000, 2100)])])]

/-- Two candidate groups, the first resolving A, the second B. -/
def exAisC : List AisRow :=
  [⟨1050, "A", "Tug", "UnderWayUsingEngine", 10, 1, ["A"]⟩,
   ⟨2050, "B", "Cargo", "UnderWayUsingEngine", 10, 1, ["B"]⟩]

/-- C4 (code bug).  Clip window: on a winning interval (1000, 1100)
shorter than 540 seconds the exported slice and filename end at
start_t plus 540 000 ms (640 000), although the stop the source itself
computes for file resolution, min(start plus 540, stop) relative to the
recording start, is 200 000 ms — the slice end ignores the interval
stop. -/
theorem clip_window_bug :
    (export_audio_clips exAisA exHmdA exShpA 2 1000).clips
      = [⟨["rec0"], 100000, 640000, "X", "Tug", 100⟩]
    ∧ (min (1000 + 540) 1100 - 900) * 1000 = (200000 : Int)
    ∧ (640000 : Int) ≠ 200000 := by decide

/-- C5 (code bug).  Return value: the run exports one clip, yet the
call returns None (the function body has no return statement), not the
count of exported clips. -/
theorem export_return_bug :
    (export_audio_clips exAisA exHmdA exShpA 2 1000).nClips = 1
    ∧ export_audio_clips_return exAisA exHmdA exShpA 2 1000 = some none
    ∧ some (none : Option Nat) ≠ some (some 1) := by decide

/-- C6 (amended).  When no recording entry starts strictly before the
clip window, the IndexError of the .iloc[-1] lookup is uncaught: any
run that has resolved at least one winner against an empty recording
index ends aborted instead of skipping the group and continuing. -/
theorem no_covering_recording_aborts (ais : List AisRow) (shp : Shp)
    (maxN : Nat) (maxD : ℚ)
    (h : (export_audio_clips ais [] shp maxN maxD).selected ≠ []) :
    (export_audio_clips ais [] shp maxN maxD).aborted = true := by
  unfold export_audio_clips at h ⊢
  refine foldl_preserve
    (fun st => st.selected ≠ [] → st.aborted = true)
    (exportStep ais [] shp maxD) ?_ (candidateRows ais maxN maxD)
    ⟨0, [], [], false⟩ (fun hne => absurd rfl hne) h
  intro st g hP
  unfold exportStep
  split
  · rename_i hab
    exact fun _ => hab
  · split
    · exact hP
    · exact fun _ => rfl

/-- Witness for C6 (amended): with the recording index empty the single
group still resolves ship Y, so the run ends aborted. -/
theorem no_covering_recording_aborts_witness :
    (export_audio_clips exAisB [] exShpB 2 1000).selected ≠ []
    ∧ (export_audio_clips exAisB [] exShpB 2 1000).aborted = true :=
  ⟨by decide, no_covering_recording_aborts exAisB exShpB 2 1000 (by decide)⟩

/-- Counterexample to C6 as stated: the first candidate group resolves
ship A, whose window precedes the only recording; the run aborts with
zero clips and never processes the second group (ship B is never
selected), instead of skipping the group and continuing. -/
theorem no_covering_recording_counterexample :
    export_audio_clips exAisC exHmdC exShpC 2 1000
      = ⟨0, ["A"], [], true⟩
    ∧ ("B" : String) ∉ (export_audio_clips exAisC exHmdC exShpC 2 1000).selected := by
  refine ⟨?_, ?_⟩ <;> decide

/-- The clips list of one export step stays unchanged or grows by one
clip stitched from at most two recordings. -/
theorem exportStep_clips (ais : List AisRow) (hmd : List HmdRow) (shp : Shp)
    (maxD : ℚ) (st : ExpSt) (g : AisRow) :
    (exportStep ais hmd shp maxD st g).clips = st.clips
    ∨ ∃ c, (exportStep ais hmd shp maxD st g).clips = st.clips ++ [c]
      ∧ c.sources.length ≤ 2 := by
  unfold exportStep
  split
  · exact Or.inl rfl
  · split
    · exact Or.inl rfl
    · rename_i b hres
      dsimp only
      split
      · right
        refine ⟨_, rfl, ?_⟩
        dsimp only
        split <;> simp
      · exact Or.inl rfl

/-- C9 (amended).  Multi-file span: the stitcher only ever concatenates
the two resolved recordings f0 and f1; every exported clip is cut from
at most two source files, and a window spanning three or more
recordings is stitched from f0 and f1 alone, silently omitting the
middle files rather than failing. -/
theorem clip_sources_bound (ais : List AisRow) (hmd : List HmdRow) (shp : Shp)
    (maxN : Nat) (maxD : ℚ) (c : Clip)
    (hc : c ∈ (export_audio_clips ais hmd shp maxN maxD).clips) :
    c.sources.length ≤ 2 := by
  unfold export_audio_clips at hc
  refine foldl_preserve
    (fun st => ∀ c ∈ st.clips, c.sources.length ≤ 2)
    (exportStep ais hmd shp maxD) ?_ (candidateRows ais maxN maxD)
    ⟨0, [], [], false⟩ (fun c hc => absurd hc (List.not_mem_nil c)) c hc
  intro st g hP c' hc'
  rcases exportStep_clips ais hmd shp maxD st g with heq | ⟨c₀, heq, hlen⟩
  · rw [heq] at hc'
    exact hP c' hc'
  · rw [heq] at hc'
    rcases List.mem_append.mp hc' with hmem | hmem
    · exact hP c' hmem
    · cases List.mem_singleton.mp hmem
      exact hlen

/-- Witness for C9 (amended) at the three-recording scenario: the
exported clip there is cut from two files. -/
theorem clip_sources_bound_witness :
    (⟨["rec0", "rec2"], 50000, 590000, "Y", "Tug", 50⟩ : Clip)
      ∈ (export_audio_clips exAisB exHmdB exShpB 2 1000).clips
    ∧ (⟨["rec0", "rec2"], 50000, 590000, "Y", "Tug", 50⟩ : Clip).sources.length
      ≤ 2 :=
  ⟨by decide, clip_sources_bound exAisB exHmdB exShpB 2 1000 _ (by decide)⟩

/-- Counterexample to C9 as stated: the window 50..590 spans the three
recordings starting at 0, 100 and 200; the run does not fail — it
exports a clip stitched from rec0 and rec2 only, silently omitting the
middle recording rec1. -/
theorem multi_file_span_counterexample :
    (export_audio_clips exAisB exHmdB exShpB 2 1000).aborted = false
    ∧ (export_audio_clips exAisB exHmdB exShpB 2 1000).clips
      = [⟨["rec0", "rec2"], 50000, 590000, "Y", "Tug", 50⟩]
    ∧ ("rec1" : String) ∉ (["rec0", "rec2"] : List String)
    ∧ (0 : Int) < 100 ∧ (100 : Int) < 590 := by decide

end AisAudioLabeler
